import Mathlib

/-!
Shallow embedding of `download_prices.py` (batch downloader for hospital
price-transparency files) and verification of its specification claims.

Strings from the Python source are modelled as `List Char` (named `Str`
below); the ASCII fragment of the Python regex character classes is used.
All definitions are translated directly from the source file; theorems
at the end of the file settle the specification claims.
-/

namespace DP

/-- Strings of the Python program, modelled as lists of characters. -/
abbrev Str := List Char

/-- Python regex class `\s` restricted to the ASCII range
(tab, LF, VT, FF, CR, FS, GS, RS, US, space). -/
def isPySpace (c : Char) : Bool :=
  (c.toNat == 9) || (c.toNat == 10) || (c.toNat == 11) || (c.toNat == 12) ||
  (c.toNat == 13) || (c.toNat == 28) || (c.toNat == 29) || (c.toNat == 30) ||
  (c.toNat == 31) || (c.toNat == 32)

/-- The characters removed by the first substitution in `sanitize_filename`,
the regex class `[<>:"/\\|?*]`. -/
def badChar (c : Char) : Bool :=
  (c == '<') || (c == '>') || (c == ':') || (c == '"') || (c == '/') ||
  (c == '\\') || (c == '|') || (c == '?') || (c == '*')

/-- Python regex class `\w` restricted to ASCII: alphanumerics and underscore. -/
def isWordChar (c : Char) : Bool := c.isAlphanum || c == '_'

/-- Characters kept by the third substitution in `sanitize_filename`:
the complement of the class `[^\w\-_.]`. -/
def keepChar (c : Char) : Bool := isWordChar c || c == '-' || c == '.'

/-- `re.sub(r'\s+', '_', s)`: replace every maximal run of whitespace by one
underscore.  The boolean argument records whether we are inside a run. -/
def collapseWs : Bool → Str → Str
  | _, [] => []
  | inRun, c :: cs =>
    if isPySpace c then
      if inRun then collapseWs true cs else '_' :: collapseWs true cs
    else c :: collapseWs false cs

/-- `sanitize_filename` from the source: drop `[<>:"/\\|?*]`, collapse
whitespace runs to `_`, drop everything outside `[\w\-_.]`, lowercase, and
truncate to 100 characters. -/
def sanitize_filename (name : Str) : Str :=
  let s1 := name.filter (fun c => !badChar c)
  let s2 := collapseWs false s1
  let s3 := s2.filter keepChar
  (s3.map Char.toLower).take 100

/-- Characters the sanitizer may emit: lowercase letters, digits, dash,
underscore, dot. -/
def outChar (c : Char) : Bool :=
  c.isLower || c.isDigit || c == '-' || c == '_' || c == '.'

/-- Decimal digit characters of a natural number, most significant first;
reference form of `Nat.toDigits 10`. -/
def decDigits (n : Nat) : List Char :=
  if _h : n < 10 then [Nat.digitChar n]
  else decDigits (n / 10) ++ [Nat.digitChar (n % 10)]
  decreasing_by exact Nat.div_lt_self (by omega) (by omega)

/-- Numeric value of a decimal digit character. -/
def digitVal (c : Char) : Nat := c.toNat - 48

/-- Decimal value of a character list (most significant digit first). -/
def decVal (l : List Char) : Nat := l.foldl (fun a c => 10 * a + digitVal c) 0

/-- Lowercasing of a Python string (ASCII model of `str.lower`). -/
def lowerStr (s : Str) : Str := s.map Char.toLower

/-- The Python `in` operator on strings: does `needle` occur as a contiguous
substring of the second argument? -/
def occursIn (needle : Str) : Str → Bool
  | [] => needle.isEmpty
  | hay@(_ :: t) => needle.isPrefixOf hay || occursIn needle t

/-! ### URL path extraction (model of `urllib.parse.urlparse(url).path`)

The model follows CPython `urlsplit`/`urlparse` restricted to what determines
the `.path` component: strip surrounding C0-control/space characters, remove
tab/CR/LF, split off the scheme, the `//netloc`, the `#fragment` and the
`?query`, and finally split `;params` off the last path segment for schemes
that use parameters. -/

/-- Strip leading and trailing C0-control or space characters. -/
def stripC0 (s : Str) : Str :=
  ((s.dropWhile (fun c => c.toNat ≤ 32)).reverse.dropWhile
    (fun c => c.toNat ≤ 32)).reverse

/-- Remove tab, carriage return and line feed anywhere in the URL. -/
def removeUnsafe (s : Str) : Str :=
  s.filter (fun c => c.toNat != 9 && c.toNat != 13 && c.toNat != 10)

/-- Characters allowed after the first character of a URL scheme. -/
def schemeChar (c : Char) : Bool :=
  c.isAlpha || c.isDigit || c == '+' || c == '-' || c == '.'

/-- Split a leading `scheme:` prefix; returns the lowercased scheme (empty if
none) and the remainder. -/
def splitScheme (s : Str) : Str × Str :=
  let pre := s.takeWhile (fun c => c != ':')
  match pre, decide (pre.length < s.length) with
  | c0 :: restc, true =>
    if c0.isAlpha && (restc.all schemeChar) then
      (lowerStr (c0 :: restc), s.drop ((c0 :: restc).length + 1))
    else ([], s)
  | _, _ => ([], s)

/-- Drop a leading `//netloc` part, keeping everything from the first `/`,
`?` or `#` that follows it. -/
def dropNetloc (s : Str) : Str :=
  match s with
  | '/' :: '/' :: rest =>
    rest.drop (rest.takeWhile (fun c => c != '/' && c != '?' && c != '#')).length
  | _ => s

/-- Schemes for which `urlparse` splits `;params` from the path. -/
def usesParams : List Str :=
  ["ftp".data, "hdl".data, "prospero".data, "http".data, "imap".data,
   "https".data, "shttp".data, "rtsp".data, "rtspu".data, "sip".data,
   "sips".data, "mms".data, "sftp".data, "tel".data]

/-- CPython `_splitparams` applied to a path containing `;`: remove the
params from the last path segment. -/
def splitParams (p : Str) : Str :=
  if p.contains '/' then
    let seg := (p.reverse.takeWhile (fun c => c != '/')).reverse
    let head := p.take (p.length - seg.length)
    if seg.contains ';' then head ++ seg.takeWhile (fun c => c != ';') else p
  else p.takeWhile (fun c => c != ';')

/-- The `.path` component of `urllib.parse.urlparse`. -/
def urlparsePath (url : Str) : Str :=
  let u := removeUnsafe (stripC0 url)
  let (scheme, r1) := splitScheme u
  let r2 := dropNetloc r1
  let r3 := r2.takeWhile (fun c => c != '#')
  let path := r3.takeWhile (fun c => c != '?')
  if usesParams.contains scheme && path.contains ';' then splitParams path
  else path

/-- Hexadecimal digit value of a character, if any. -/
def hexDigit? (c : Char) : Option Nat :=
  if c.isDigit then some (c.toNat - 48)
  else if 97 ≤ c.toNat && c.toNat ≤ 102 then some (c.toNat - 87)
  else if 65 ≤ c.toNat && c.toNat ≤ 70 then some (c.toNat - 55)
  else none

/-- `urllib.parse.unquote` (single-byte model): decode each `%XX` escape to
the character with that code; malformed escapes are kept verbatim. -/
def unquote : Str → Str
  | '%' :: a :: b :: rest =>
    match hexDigit? a, hexDigit? b with
    | some x, some y => Char.ofNat (16 * x + y) :: unquote rest
    | _, _ => '%' :: unquote (a :: b :: rest)
  | c :: rest => c :: unquote rest
  | [] => []

/-- `get_extension_from_url` from the source: the URL path suffix wins,
then a substring match on the declared file type, then `.json`. -/
def get_extension_from_url (url file_type : Str) : Str :=
  let path := unquote (urlparsePath url)
  if ".csv".data.isSuffixOf path then ".csv".data
  else if ".json".data.isSuffixOf path then ".json".data
  else if ".zip".data.isSuffixOf path then ".zip".data
  else if ".xlsx".data.isSuffixOf path then ".xlsx".data
  else if ".xml".data.isSuffixOf path then ".xml".data
  else
    let ftl := lowerStr file_type
    if occursIn "csv".data ftl then ".csv".data
    else if occursIn "json".data ftl then ".json".data
    else if occursIn "zip".data ftl then ".zip".data
    else if occursIn "api".data ftl then ".json".data
    else ".json".data

/-! ### Response headers and `get_extension_from_response` -/

/-- Response headers as an association list; lookup is case-insensitive in
the header name (model of `requests` CaseInsensitiveDict with default). -/
abbrev Headers := List (Str × Str)

def headerGet (hs : Headers) (key : Str) : Str :=
  match hs.find? (fun p => lowerStr p.1 == lowerStr key) with
  | some p => p.2
  | none => []

/-- The single-quote character (codepoint 39). -/
def squote : Char := Char.ofNat 39

/-- Character class of the run between `filename` and `=` in the
content-disposition regex. -/
def cdRunChar (c : Char) : Bool := c != ';' && c != '=' && c != '\n'

/-- Character class of the filename value in the content-disposition regex. -/
def cdValChar (c : Char) : Bool := c != squote && c != '"' && c != '\n'

/-- One anchored attempt of the source regex
`filename[^;=\n]*=(['\x22]?)([^'\x22\n]*)\1`; returns the second capture
group on a match.  The greedy runs and the backreference collapse to the
deterministic case split implemented here. -/
def cdMatchAt (s : Str) : Option Str :=
  if "filename".data.isPrefixOf s then
    let r := s.drop 8
    let a := r.takeWhile cdRunChar
    match r.drop a.length with
    | '=' :: t =>
      match t with
      | q :: t2 =>
        if q == '"' || q == squote then
          let b := t2.takeWhile cdValChar
          match t2.drop b.length with
          | c :: _ => if c == q then some b else some []
          | [] => some []
        else some (t.takeWhile cdValChar)
      | [] => some []
    | _ => none
  else none

/-- `re.search` with the above pattern: try each start position from the
left, returning the first match. -/
def cdSearch : Str → Option Str
  | [] => none
  | s@(_ :: t) =>
    match cdMatchAt s with
    | some g => some g
    | none => cdSearch t

/-- `filename.split('.')[-1]`: the part after the last dot. -/
def afterLastDot (s : Str) : Str := (s.reverse.takeWhile (fun c => c != '.')).reverse

/-- `get_extension_from_response` from the source: content-type substring
match first, then a filename in content-disposition, then the fallback. -/
def get_extension_from_response (hs : Headers) (default_ext : Str) : Str :=
  let ct := lowerStr (headerGet hs "Content-Type".data)
  if occursIn "csv".data ct || occursIn "text/csv".data ct then ".csv".data
  else if occursIn "json".data ct then ".json".data
  else if occursIn "zip".data ct || occursIn "application/zip".data ct then ".zip".data
  else if occursIn "excel".data ct || occursIn "spreadsheet".data ct then ".xlsx".data
  else if occursIn "xml".data ct then ".xml".data
  else
    let cd := headerGet hs "Content-Disposition".data
    if occursIn "filename=".data cd then
      match cdSearch cd with
      | some fname =>
        if fname.contains '.' then '.' :: lowerStr (afterLastDot fname) else default_ext
      | none => default_ext
    else default_ext

/-! ### Duplicate-filename resolution -/

/-- Candidate destination names: `base ++ ext`, then `base_1.ext`,
`base_2.ext`, ... exactly as generated by the collision loop. -/
def candName (base ext : Str) : Nat → Str
  | 0 => base ++ ext
  | k + 1 => base ++ '_' :: ((Nat.repr (k + 1)).data ++ ext)

/-- Fuelled version of the `while filepath.exists()` loop: try candidates
from index `k`, returning the first one not present in the directory. -/
def findFresh (dir : List Str) (base ext : Str) : Nat → Nat → Option Str
  | _, 0 => none
  | k, fuel + 1 =>
    let c := candName base ext k
    if dir.contains c then findFresh dir base ext (k + 1) fuel else some c

/-- Destination-name resolution.  `dir.length + 1` candidates always contain
a fresh one (proved below), so the default never fires. -/
def resolveName (dir : List Str) (base ext : Str) : Str :=
  (findFresh dir base ext 0 (dir.length + 1)).getD (base ++ ext)

/-! ### The fetch loop of `download_file` -/

/-- Outcome of streaming the response body to disk. -/
inductive Body where
  | ok (chunks : List Nat)
  | failReq (written : List Nat) (msg : Str)
  | failOther (written : List Nat) (msg : Str)
deriving DecidableEq

/-- An HTTP response as far as the program observes it. -/
structure Resp where
  status : Nat
  reason : Str
  headers : Headers
  body : Body
deriving DecidableEq

/-- Environment outcome of one attempt of `requests.get`. -/
inductive Outcome where
  | timeout
  | reqError (msg : Str)
  | resp (r : Resp)
deriving DecidableEq

def RETRY_ATTEMPTS : Nat := 3
def TIMEOUT : Nat := 120

/-- The per-row result dictionary of `download_file`. -/
structure DLResult where
  hospital : Str
  url : Str
  success : Bool
  filename : Option Str
  error : Option Str
  size : Nat
deriving DecidableEq

def timeoutMsg (attempt : Nat) : Str :=
  "Timeout after ".data ++ (Nat.repr TIMEOUT).data ++ "s (attempt ".data ++
    (Nat.repr (attempt + 1)).data ++ "/".data ++ (Nat.repr RETRY_ATTEMPTS).data ++ ")".data

def httpErrMsg (status : Nat) (reason : Str) : Str :=
  "HTTP ".data ++ (Nat.repr status).data ++ ": ".data ++ reason

/-- Everything `download_file` produces: the result record, the final region
directory contents, the backoff waits performed (in seconds), and the number
of attempts made. -/
structure LoopOut where
  result : DLResult
  dir : List Str
  waits : List Nat
  attempts : Nat
deriving DecidableEq

/-- The `for attempt in range(RETRY_ATTEMPTS)` loop of `download_file`.
`rem + 1` is the number of iterations still available, so the source guard
`attempt < RETRY_ATTEMPTS - 1` for sleeping and continuing is `rem ≠ 0`.
Opening the destination file creates it, so a mid-stream failure still adds
the chosen name to the directory. -/
def dlLoop (env : Nat → Outcome) (base expected_ext relPrefix : Str) :
    Nat → Nat → DLResult → List Str → List Nat → LoopOut
  | attempt, 0, res, dir, waits => ⟨res, dir, waits, attempt⟩
  | attempt, rem + 1, res, dir, waits =>
    match env attempt with
    | .timeout =>
      let res := { res with error := some (timeoutMsg attempt) }
      if rem = 0 then ⟨res, dir, waits, attempt + 1⟩
      else dlLoop env base expected_ext relPrefix (attempt + 1) rem res dir (waits ++ [2 ^ attempt])
    | .reqError msg =>
      let res := { res with error := some msg }
      if rem = 0 then ⟨res, dir, waits, attempt + 1⟩
      else dlLoop env base expected_ext relPrefix (attempt + 1) rem res dir (waits ++ [2 ^ attempt])
    | .resp r =>
      if 400 ≤ r.status ∧ r.status < 600 then
        ⟨{ res with error := some (httpErrMsg r.status r.reason) }, dir, waits, attempt + 1⟩
      else
        let aext := get_extension_from_response r.headers expected_ext
        let fname := resolveName dir base aext
        match r.body with
        | .ok chunks =>
          ⟨{ res with
              success := true
              filename := some (relPrefix ++ fname)
              size := (chunks.filter (fun n => n != 0)).sum },
           dir ++ [fname], waits, attempt + 1⟩
        | .failReq _ msg =>
          let res := { res with error := some msg }
          let dir := dir ++ [fname]
          if rem = 0 then ⟨res, dir, waits, attempt + 1⟩
          else dlLoop env base expected_ext relPrefix (attempt + 1) rem res dir (waits ++ [2 ^ attempt])
        | .failOther _ msg =>
          ⟨{ res with error := some ("Unexpected error: ".data ++ msg) }, dir ++ [fname], waits, attempt + 1⟩

/-- `download_file` from the source.  `dir` is the current contents of the
region directory, `outName` the name of the output directory (paths in the
result are relative to its parent), and `env` tells how attempt `i` of
`requests.get` turns out. -/
def download_file (hospital_name url file_type region : Str)
    (dir : List Str) (outName : Str) (env : Nat → Outcome) : LoopOut :=
  let res : DLResult := ⟨hospital_name, url, false, none, none, 0⟩
  let base := sanitize_filename hospital_name
  let eext := get_extension_from_url url file_type
  let relPrefix := outName ++ '/' :: (sanitize_filename region ++ ['/'])
  dlLoop env base eext relPrefix 0 RETRY_ATTEMPTS res dir []

/-! ### The orchestrator `main` -/

/-- The output directory as a map from sanitized region name to the files
in that region subdirectory. -/
abbrev FS := List (Str × List Str)

def fsGet (fs : FS) (k : Str) : List Str :=
  ((fs.find? (fun p => p.1 == k)).map Prod.snd).getD []

def fsSet : FS → Str → List Str → FS
  | [], k, v => [(k, v)]
  | (k0, v0) :: rest, k, v =>
    if k0 == k then (k0, v) :: rest else (k0, v0) :: fsSet rest k v

/-- One manifest row as produced by `csv.DictReader`. -/
structure RawRow where
  fields : List (Str × Str)
deriving DecidableEq

def rowGet (r : RawRow) (k : Str) : Option Str := List.lookup k r.fields

def keyErrorMsg (k : Str) : Str := "KeyError: ".data ++ k

/-- The first required manifest field missing from a row, in the order the
source accesses them. -/
def firstMissing (r : RawRow) : Option Str :=
  if (rowGet r "hospital_name".data).isNone then some "hospital_name".data
  else if (rowGet r "mrf_download_url".data).isNone then some "mrf_download_url".data
  else if (rowGet r "file_type".data).isNone then some "file_type".data
  else if (rowGet r "region".data).isNone then some "region".data
  else none

/-- The row loop of `main`: each row is fetched with the current contents of
its region directory; a missing required field raises (aborts the run). -/
def processRows (outName : Str) (envs : Nat → Nat → Outcome) :
    List RawRow → Nat → FS → Except Str (List DLResult × FS)
  | [], _, fs => .ok ([], fs)
  | r :: rest, i, fs =>
    match rowGet r "hospital_name".data, rowGet r "mrf_download_url".data,
          rowGet r "file_type".data, rowGet r "region".data with
    | some name, some url, some ft, some region =>
      let key := sanitize_filename region
      let out := download_file name url ft region (fsGet fs key) outName (envs i)
      match processRows outName envs rest (i + 1) (fsSet fs key out.dir) with
      | .ok (results, fs2) => .ok (out.result :: results, fs2)
      | .error e => .error e
    | _, _, _, _ => .error (keyErrorMsg ((firstMissing r).getD []))

def pyBool : Bool → Str
  | true => "True".data
  | false => "False".data

def optStr : Option Str → Str
  | some s => s
  | none => []

/-- One data row of `download_log.csv` as written by the `csv.DictWriter`. -/
def logRow (r : DLResult) : List Str :=
  [r.hospital, r.url, pyBool r.success, optStr r.filename,
   (Nat.repr r.size).data, optStr r.error]

def logHeader : List Str :=
  ["hospital".data, "url".data, "success".data, "filename".data,
   "size".data, "error".data]

/-- Observable outcome of one run of `main`. -/
structure RunOut where
  exitCode : Nat
  log : Option (List (List Str))
  results : List DLResult
  okCount : Nat
  failCount : Nat
  totalBytes : Nat
deriving DecidableEq

/-- `main` from the source: fail fast when the manifest is missing, process
all rows, write the log, print the summary, and return the exit status.
An uncaught exception (missing manifest field) is the `.error` case. -/
def mainRun (manifestExists : Bool) (rows : List RawRow) (outName : Str)
    (envs : Nat → Nat → Outcome) : Except Str RunOut :=
  if manifestExists then
    match processRows outName envs rows 0 [] with
    | .error e => .error e
    | .ok (results, _fs) =>
      let succ := (results.filter (fun r => r.success)).length
      let failed := (results.filter (fun r => !r.success)).length
      let tb := (results.filter (fun r => r.success)).foldl (fun a r => a + r.size) 0
      .ok ⟨if failed = 0 then 0 else 1, some (logHeader :: results.map logRow),
           results, succ, failed, tb⟩
  else .ok ⟨1, none, [], 0, 0, 0⟩

/-! ## Character-level lemmas -/

theorem toNat_ofNat_lt {m : Nat} (h : m < 55296) : (Char.ofNat m).toNat = m := by
  unfold Char.ofNat
  rw [dif_pos (Or.inl h)]
  rfl

theorem char_eq_iff (c d : Char) : c = d ↔ c.toNat = d.toNat := by
  constructor
  · rintro rfl; rfl
  · intro h
    exact Char.eq_of_val_eq (UInt32.ext h)

theorem isPySpace_iff (c : Char) : isPySpace c = true ↔
    (9 ≤ c.toNat ∧ c.toNat ≤ 13) ∨ (28 ≤ c.toNat ∧ c.toNat ≤ 32) := by
  unfold isPySpace
  simp only [Bool.or_eq_true, beq_iff_eq]
  omega

theorem ule_iff (a b : UInt32) : a ≤ b ↔ a.toNat ≤ b.toNat := by
  rw [UInt32.le_def]; exact BitVec.le_def

theorem val_toNat (c : Char) : c.val.toNat = c.toNat := rfl

theorem badChar_iff (c : Char) : badChar c = true ↔
    c.toNat = 60 ∨ c.toNat = 62 ∨ c.toNat = 58 ∨ c.toNat = 34 ∨ c.toNat = 47 ∨
    c.toNat = 92 ∨ c.toNat = 124 ∨ c.toNat = 63 ∨ c.toNat = 42 := by
  have e1 : ('<').toNat = 60 := rfl
  have e2 : ('>').toNat = 62 := rfl
  have e3 : (':').toNat = 58 := rfl
  have e4 : ('"').toNat = 34 := rfl
  have e5 : ('/').toNat = 47 := rfl
  have e6 : ('\\').toNat = 92 := rfl
  have e7 : ('|').toNat = 124 := rfl
  have e8 : ('?').toNat = 63 := rfl
  have e9 : ('*').toNat = 42 := rfl
  unfold badChar
  simp only [Bool.or_eq_true, beq_iff_eq, char_eq_iff, e1, e2, e3, e4, e5, e6, e7, e8, e9]
  omega

theorem keepChar_iff (c : Char) : keepChar c = true ↔
    (65 ≤ c.toNat ∧ c.toNat ≤ 90) ∨ (97 ≤ c.toNat ∧ c.toNat ≤ 122) ∨
    (48 ≤ c.toNat ∧ c.toNat ≤ 57) ∨ c.toNat = 95 ∨ c.toNat = 45 ∨ c.toNat = 46 := by
  have e1 : ('_').toNat = 95 := rfl
  have e2 : ('-').toNat = 45 := rfl
  have e3 : ('.').toNat = 46 := rfl
  have e0 : UInt32.size = 4294967296 := rfl
  unfold keepChar isWordChar
  simp only [Char.isAlphanum, Char.isAlpha, Char.isUpper, Char.isLower, Char.isDigit,
    Bool.or_eq_true, Bool.and_eq_true, decide_eq_true_eq, beq_iff_eq, char_eq_iff,
    ge_iff_le, ule_iff, val_toNat, UInt32.toNat_ofNat, e0, e1, e2, e3]
  omega

theorem outChar_iff (c : Char) : outChar c = true ↔
    (97 ≤ c.toNat ∧ c.toNat ≤ 122) ∨ (48 ≤ c.toNat ∧ c.toNat ≤ 57) ∨
    c.toNat = 45 ∨ c.toNat = 95 ∨ c.toNat = 46 := by
  have e1 : ('_').toNat = 95 := rfl
  have e2 : ('-').toNat = 45 := rfl
  have e3 : ('.').toNat = 46 := rfl
  have e0 : UInt32.size = 4294967296 := rfl
  unfold outChar
  simp only [Char.isLower, Char.isDigit, Bool.or_eq_true, Bool.and_eq_true,
    decide_eq_true_eq, beq_iff_eq, char_eq_iff, ge_iff_le, ule_iff, val_toNat,
    UInt32.toNat_ofNat, e0, e1, e2, e3]
  omega

theorem toLower_toNat (d : Char) :
    (Char.toLower d).toNat = if 65 ≤ d.toNat ∧ d.toNat ≤ 90 then d.toNat + 32 else d.toNat := by
  unfold Char.toLower
  split
  · next h => rw [if_pos ⟨h.1, h.2⟩]; exact toNat_ofNat_lt (by omega)
  · next h => rw [if_neg h]

theorem toLower_idem (d : Char) : Char.toLower (Char.toLower d) = Char.toLower d := by
  rw [char_eq_iff]
  simp only [toLower_toNat]
  split_ifs <;> omega

theorem keep_toLower {d : Char} (h : keepChar d = true) :
    badChar (Char.toLower d) = false ∧ isPySpace (Char.toLower d) = false ∧
    keepChar (Char.toLower d) = true ∧ Char.toLower (Char.toLower d) = Char.toLower d ∧
    outChar (Char.toLower d) = true := by
  rw [keepChar_iff] at h
  have ht := toLower_toNat d
  refine ⟨?_, ?_, ?_, toLower_idem d, ?_⟩
  · have hb : ¬(badChar (Char.toLower d) = true) := by
      rw [badChar_iff, ht]; split_ifs <;> omega
    exact Bool.eq_false_iff.mpr hb
  · have hb : ¬(isPySpace (Char.toLower d) = true) := by
      rw [isPySpace_iff, ht]; split_ifs <;> omega
    exact Bool.eq_false_iff.mpr hb
  · rw [keepChar_iff, ht]; split_ifs <;> omega
  · rw [outChar_iff, ht]; split_ifs <;> omega

/-! ## Decimal representation lemmas (`Nat.repr` injectivity) -/

theorem digitVal_digitChar {n : Nat} (h : n < 10) : digitVal (Nat.digitChar n) = n := by
  interval_cases n <;> decide

theorem decDigits_ne_nil (n : Nat) : decDigits n ≠ [] := by
  unfold decDigits
  split
  · simp
  · simp

theorem decDigits_length_pos (n : Nat) : 0 < (decDigits n).length := by
  cases h : decDigits n with
  | nil => exact absurd h (decDigits_ne_nil n)
  | cons a l => simp

theorem toDigitsCore_eq_decDigits :
    ∀ (fuel n : Nat) (ds : List Char), n < fuel →
      Nat.toDigitsCore 10 fuel n ds = decDigits n ++ ds := by
  intro fuel
  induction fuel with
  | zero => intro n ds h; omega
  | succ fuel ih =>
    intro n ds h
    rw [Nat.toDigitsCore]
    by_cases h10 : n / 10 = 0
    · rw [if_pos h10]
      have hn : n < 10 := by omega
      rw [decDigits, dif_pos hn, Nat.mod_eq_of_lt hn]
      rfl
    · rw [if_neg h10]
      have hlt : n / 10 < fuel := by
        have hx : n / 10 < n := Nat.div_lt_self (by omega) (by omega)
        omega
      rw [ih (n / 10) _ hlt]
      have hn : ¬ n < 10 := by
        intro hc
        exact h10 (Nat.div_eq_of_lt hc)
      conv_rhs => rw [decDigits, dif_neg hn]
      simp

theorem foldl_decDigits :
    ∀ (n a : Nat), (decDigits n).foldl (fun x c => 10 * x + digitVal c) a =
      a * 10 ^ (decDigits n).length + n := by
  intro n
  induction n using Nat.strong_induction_on with
  | _ n ih =>
    intro a
    by_cases h : n < 10
    · rw [decDigits, dif_pos h]
      simp [List.foldl, digitVal_digitChar h]
      omega
    · rw [decDigits, dif_neg h]
      rw [List.foldl_append]
      rw [ih (n / 10) (Nat.div_lt_self (by omega) (by omega)) a]
      have hm : digitVal (Nat.digitChar (n % 10)) = n % 10 :=
        digitVal_digitChar (Nat.mod_lt _ (by omega))
      simp only [List.foldl, List.length_append, List.length_cons, List.length_nil, hm]
      have : 10 ^ ((decDigits (n / 10)).length + (0 + 1)) =
          10 ^ (decDigits (n / 10)).length * 10 := by ring
      rw [this]
      have hdm := Nat.div_add_mod n 10
      ring_nf
      omega

theorem decVal_decDigits (n : Nat) : decVal (decDigits n) = n := by
  unfold decVal
  rw [foldl_decDigits]
  simp

theorem decDigits_inj : Function.Injective decDigits := by
  intro m n h
  have hm := decVal_decDigits m
  rw [h, decVal_decDigits] at hm
  omega

theorem repr_data (n : Nat) : (Nat.repr n).data = decDigits n := by
  show (Nat.toDigits 10 n).asString.data = decDigits n
  rw [Nat.toDigits, toDigitsCore_eq_decDigits (n + 1) n [] (Nat.lt_succ_self n)]
  simp [List.asString]

theorem repr_data_inj {m n : Nat} (h : (Nat.repr m).data = (Nat.repr n).data) : m = n := by
  rw [repr_data, repr_data] at h
  exact decDigits_inj h

/-! ## Sanitizer lemmas and claim C4 -/

theorem collapseWs_no_space :
    ∀ (b : Bool) (l : Str), (∀ c ∈ l, isPySpace c = false) → collapseWs b l = l := by
  intro b l
  induction l generalizing b with
  | nil => intro _; rfl
  | cons c cs ih =>
    intro h
    have hc := h c (List.mem_cons_self c cs)
    unfold collapseWs
    rw [hc]
    simp only [Bool.false_eq_true, if_false]
    rw [ih false (fun a ha => h a (List.mem_cons_of_mem c ha))]

theorem mem_sanitize {x : Str} {c : Char} (h : c ∈ sanitize_filename x) :
    ∃ d, keepChar d = true ∧ c = Char.toLower d := by
  simp only [sanitize_filename] at h
  have h1 := List.mem_of_mem_take h
  rcases List.mem_map.mp h1 with ⟨d, hd, rfl⟩
  exact ⟨d, (List.mem_filter.mp hd).2, rfl⟩

theorem sanitize_all (x : Str) : ∀ c ∈ sanitize_filename x,
    badChar c = false ∧ isPySpace c = false ∧ keepChar c = true ∧
    Char.toLower c = c ∧ outChar c = true := by
  intro c hc
  rcases mem_sanitize hc with ⟨d, hd, rfl⟩
  exact keep_toLower hd

theorem map_id_of_mem {l : Str} {f : Char → Char} (h : ∀ a ∈ l, f a = a) : l.map f = l := by
  induction l with
  | nil => rfl
  | cons a t ih =>
    simp only [List.map_cons, h a (List.mem_cons_self a t)]
    rw [ih (fun b hb => h b (List.mem_cons_of_mem a hb))]

theorem sanitize_len (x : Str) : (sanitize_filename x).length ≤ 100 := by
  simp only [sanitize_filename]
  exact List.length_take_le 100 _

theorem sanitize_idem (x : Str) :
    sanitize_filename (sanitize_filename x) = sanitize_filename x := by
  have hall := sanitize_all x
  have h1 : (sanitize_filename x).filter (fun c => !badChar c) = sanitize_filename x :=
    List.filter_eq_self.mpr (fun a ha => by simp [(hall a ha).1])
  have h2 : collapseWs false (sanitize_filename x) = sanitize_filename x :=
    collapseWs_no_space false _ (fun a ha => (hall a ha).2.1)
  have h3 : (sanitize_filename x).filter keepChar = sanitize_filename x :=
    List.filter_eq_self.mpr (fun a ha => (hall a ha).2.2.1)
  have h4 : (sanitize_filename x).map Char.toLower = sanitize_filename x :=
    map_id_of_mem (fun a ha => (hall a ha).2.2.2.1)
  calc sanitize_filename (sanitize_filename x)
      = ((((collapseWs false ((sanitize_filename x).filter
          (fun c => !badChar c))).filter keepChar).map Char.toLower)).take 100 := rfl
    _ = (sanitize_filename x).take 100 := by rw [h1, h2, h3, h4]
    _ = sanitize_filename x := List.take_of_length_le (sanitize_len x)

theorem sanitize_all_invalid {x : Str}
    (h : ∀ c ∈ x, keepChar c = false ∧ isPySpace c = false) :
    sanitize_filename x = [] := by
  simp only [sanitize_filename]
  have h1 : ∀ c ∈ x.filter (fun c => !badChar c), isPySpace c = false :=
    fun c hc => (h c (List.mem_of_mem_filter hc)).2
  rw [collapseWs_no_space false _ h1]
  have h2 : (x.filter (fun c => !badChar c)).filter keepChar = [] := by
    rw [List.filter_eq_nil_iff]
    intro c hc
    simp [(h c (List.mem_of_mem_filter hc)).1]
  rw [h2]
  rfl

/-- C4: for every input string, `sanitize_filename` (a total Lean function,
hence total and deterministic) is idempotent, its output has length at most
100, its output contains only lowercase alphanumerics, dash, underscore and
dot, and an all-invalid input (no character kept by the sanitizer and no
whitespace) yields the empty string. -/
theorem C4_sanitize_spec (x : Str) :
    sanitize_filename (sanitize_filename x) = sanitize_filename x ∧
    (sanitize_filename x).length ≤ 100 ∧
    (∀ c ∈ sanitize_filename x, outChar c = true) ∧
    ((∀ c ∈ x, keepChar c = false ∧ isPySpace c = false) → sanitize_filename x = []) :=
  ⟨sanitize_idem x, sanitize_len x,
   fun c hc => (sanitize_all x c hc).2.2.2.2,
   sanitize_all_invalid⟩

/-- Witness for C4 at concrete inputs, discharging the all-invalid
hypothesis at the string `"?*<>"`. -/
theorem C4_sanitize_spec_witness :
    sanitize_filename (sanitize_filename "St  Mary? Hosp".data) =
      sanitize_filename "St  Mary? Hosp".data ∧
    sanitize_filename "?*<>".data = [] := by
  refine ⟨(C4_sanitize_spec "St  Mary? Hosp".data).1,
          (C4_sanitize_spec "?*<>".data).2.2.2 ?_⟩
  decide

/-! ## Claim C5: pre-request extension resolution -/

theorem suffix_excl (s1 s2 : Str) {path : Str} (h1 : s1.isSuffixOf path = true)
    (ha : s2.isSuffixOf s1 = false) (hb : s1.isSuffixOf s2 = false) :
    s2.isSuffixOf path = false := by
  cases hx : s2.isSuffixOf path with
  | false => rfl
  | true =>
    exfalso
    have hs1 := List.isSuffixOf_iff_suffix.mp h1
    have hs2 := List.isSuffixOf_iff_suffix.mp hx
    rcases List.suffix_or_suffix_of_suffix hs2 hs1 with hh | hh
    · exact absurd (List.isSuffixOf_iff_suffix.mpr hh) (by simp [ha])
    · exact absurd (List.isSuffixOf_iff_suffix.mpr hh) (by simp [hb])

/-- C5: the pre-request extension resolver is total (a Lean function) and
follows the claimed precedence: a recognized suffix of the URL path wins;
otherwise a case-insensitive substring match of the declared type against
csv, json, zip, api (in the order of the source) decides, api mapping to
`.json`; otherwise `.json`.  The two concrete examples of the claim close
the statement. -/
theorem C5_pre_request_extension (url file_type : Str) :
    (".csv".data.isSuffixOf (unquote (urlparsePath url)) = true →
      get_extension_from_url url file_type = ".csv".data) ∧
    (".json".data.isSuffixOf (unquote (urlparsePath url)) = true →
      get_extension_from_url url file_type = ".json".data) ∧
    (".zip".data.isSuffixOf (unquote (urlparsePath url)) = true →
      get_extension_from_url url file_type = ".zip".data) ∧
    (".xlsx".data.isSuffixOf (unquote (urlparsePath url)) = true →
      get_extension_from_url url file_type = ".xlsx".data) ∧
    (".xml".data.isSuffixOf (unquote (urlparsePath url)) = true →
      get_extension_from_url url file_type = ".xml".data) ∧
    ((∀ e ∈ [".csv".data, ".json".data, ".zip".data, ".xlsx".data, ".xml".data],
        e.isSuffixOf (unquote (urlparsePath url)) = false) →
      (occursIn "csv".data (lowerStr file_type) = true →
        get_extension_from_url url file_type = ".csv".data) ∧
      (occursIn "csv".data (lowerStr file_type) = false →
       occursIn "json".data (lowerStr file_type) = true →
        get_extension_from_url url file_type = ".json".data) ∧
      (occursIn "csv".data (lowerStr file_type) = false →
       occursIn "json".data (lowerStr file_type) = false →
       occursIn "zip".data (lowerStr file_type) = true →
        get_extension_from_url url file_type = ".zip".data) ∧
      (occursIn "csv".data (lowerStr file_type) = false →
       occursIn "json".data (lowerStr file_type) = false →
       occursIn "zip".data (lowerStr file_type) = false →
       occursIn "api".data (lowerStr file_type) = true →
        get_extension_from_url url file_type = ".json".data) ∧
      (occursIn "csv".data (lowerStr file_type) = false →
       occursIn "json".data (lowerStr file_type) = false →
       occursIn "zip".data (lowerStr file_type) = false →
       occursIn "api".data (lowerStr file_type) = false →
        get_extension_from_url url file_type = ".json".data)) ∧
    get_extension_from_url "https://h/data.csv".data "API".data = ".csv".data ∧
    get_extension_from_url "https://h/endpoint".data "API".data = ".json".data := by
  refine ⟨?_, ?_, ?_, ?_, ?_, ?_, by decide, by decide⟩
  · intro h
    simp [get_extension_from_url, h]
  · intro h
    have hcsv := suffix_excl ".json".data ".csv".data h (by decide) (by decide)
    simp [get_extension_from_url, hcsv, h]
  · intro h
    have hcsv := suffix_excl ".zip".data ".csv".data h (by decide) (by decide)
    have hjson := suffix_excl ".zip".data ".json".data h (by decide) (by decide)
    simp [get_extension_from_url, hcsv, hjson, h]
  · intro h
    have hcsv := suffix_excl ".xlsx".data ".csv".data h (by decide) (by decide)
    have hjson := suffix_excl ".xlsx".data ".json".data h (by decide) (by decide)
    have hzip := suffix_excl ".xlsx".data ".zip".data h (by decide) (by decide)
    simp [get_extension_from_url, hcsv, hjson, hzip, h]
  · intro h
    have hcsv := suffix_excl ".xml".data ".csv".data h (by decide) (by decide)
    have hjson := suffix_excl ".xml".data ".json".data h (by decide) (by decide)
    have hzip := suffix_excl ".xml".data ".zip".data h (by decide) (by decide)
    have hxlsx := suffix_excl ".xml".data ".xlsx".data h (by decide) (by decide)
    simp [get_extension_from_url, hcsv, hjson, hzip, hxlsx, h]
  · intro hall
    have hcsv := hall ".csv".data (by simp)
    have hjson := hall ".json".data (by simp)
    have hzip := hall ".zip".data (by simp)
    have hxlsx := hall ".xlsx".data (by simp)
    have hxml := hall ".xml".data (by simp)
    refine ⟨?_, ?_, ?_, ?_, ?_⟩ <;> intros <;>
      simp [get_extension_from_url, hcsv, hjson, hzip, hxlsx, hxml, *]

/-- Witness for C5, discharging the suffix hypothesis and the declared-type
chain at concrete inputs. -/
theorem C5_pre_request_extension_witness :
    get_extension_from_url "https://h/a.json".data "CSV".data = ".json".data ∧
    get_extension_from_url "https://h/x".data "API Feed".data = ".json".data := by
  refine ⟨(C5_pre_request_extension "https://h/a.json".data "CSV".data).2.1 (by decide), ?_⟩
  exact (((C5_pre_request_extension "https://h/x".data
    "API Feed".data).2.2.2.2.2.1 (by decide)).2.2.2.1) (by decide) (by decide)
    (by decide) (by decide)

/-! ## Claim C6: post-response extension resolution -/

theorem occursIn_iff (n : Str) : ∀ h : Str, occursIn n h = true ↔ n <:+: h := by
  intro h
  induction h with
  | nil =>
    simp only [occursIn, List.isEmpty_iff, List.infix_nil]
  | cons c t ih =>
    simp only [occursIn, Bool.or_eq_true, List.infix_cons_iff, ih]
    constructor
    · rintro (hp | hi)
      · exact Or.inl (List.isPrefixOf_iff_prefix.mp hp)
      · exact Or.inr hi
    · rintro (hp | hi)
      · exact Or.inl (List.isPrefixOf_iff_prefix.mpr hp)
      · exact Or.inr hi

theorem occursIn_trans {b a s : Str} (h1 : occursIn b a = true)
    (h2 : occursIn a s = true) : occursIn b s = true := by
  rw [occursIn_iff] at h1 h2 ⊢
  exact h1.trans h2

theorem occursIn_false_of (b a : Str) {s : Str} (hba : occursIn b a = true)
    (hb : occursIn b s = false) : occursIn a s = false := by
  cases hx : occursIn a s with
  | false => rfl
  | true => exact absurd (occursIn_trans hba hx) (by simp [hb])

/-- C6: the post-response extension resolver is total (a Lean function) and
follows the claimed precedence: a substring match on the lowercased
content-type header decides first (csv, json, zip, excel/spreadsheet to
xlsx, xml); otherwise a filename with a dot embedded in the
content-disposition header contributes its lowercased suffix; otherwise the
pre-request fallback is returned.  The concrete example closes the
statement: content-type text/csv overrides a fallback of `.json`. -/
theorem C6_post_response_extension (hs : Headers) (default_ext : Str) :
    (occursIn "csv".data (lowerStr (headerGet hs "Content-Type".data)) = true →
      get_extension_from_response hs default_ext = ".csv".data) ∧
    (occursIn "csv".data (lowerStr (headerGet hs "Content-Type".data)) = false →
     occursIn "json".data (lowerStr (headerGet hs "Content-Type".data)) = true →
      get_extension_from_response hs default_ext = ".json".data) ∧
    (occursIn "csv".data (lowerStr (headerGet hs "Content-Type".data)) = false →
     occursIn "json".data (lowerStr (headerGet hs "Content-Type".data)) = false →
     occursIn "zip".data (lowerStr (headerGet hs "Content-Type".data)) = true →
      get_extension_from_response hs default_ext = ".zip".data) ∧
    (occursIn "csv".data (lowerStr (headerGet hs "Content-Type".data)) = false →
     occursIn "json".data (lowerStr (headerGet hs "Content-Type".data)) = false →
     occursIn "zip".data (lowerStr (headerGet hs "Content-Type".data)) = false →
     (occursIn "excel".data (lowerStr (headerGet hs "Content-Type".data)) = true ∨
      occursIn "spreadsheet".data (lowerStr (headerGet hs "Content-Type".data)) = true) →
      get_extension_from_response hs default_ext = ".xlsx".data) ∧
    (occursIn "csv".data (lowerStr (headerGet hs "Content-Type".data)) = false →
     occursIn "json".data (lowerStr (headerGet hs "Content-Type".data)) = false →
     occursIn "zip".data (lowerStr (headerGet hs "Content-Type".data)) = false →
     occursIn "excel".data (lowerStr (headerGet hs "Content-Type".data)) = false →
     occursIn "spreadsheet".data (lowerStr (headerGet hs "Content-Type".data)) = false →
     occursIn "xml".data (lowerStr (headerGet hs "Content-Type".data)) = true →
      get_extension_from_response hs default_ext = ".xml".data) ∧
    ((occursIn "csv".data (lowerStr (headerGet hs "Content-Type".data)) = false ∧
      occursIn "json".data (lowerStr (headerGet hs "Content-Type".data)) = false ∧
      occursIn "zip".data (lowerStr (headerGet hs "Content-Type".data)) = false ∧
      occursIn "excel".data (lowerStr (headerGet hs "Content-Type".data)) = false ∧
      occursIn "spreadsheet".data (lowerStr (headerGet hs "Content-Type".data)) = false ∧
      occursIn "xml".data (lowerStr (headerGet hs "Content-Type".data)) = false) →
      (∀ f, occursIn "filename=".data (headerGet hs "Content-Disposition".data) = true →
        cdSearch (headerGet hs "Content-Disposition".data) = some f →
        f.contains '.' = true →
        get_extension_from_response hs default_ext = '.' :: lowerStr (afterLastDot f)) ∧
      (∀ f, occursIn "filename=".data (headerGet hs "Content-Disposition".data) = true →
        cdSearch (headerGet hs "Content-Disposition".data) = some f →
        f.contains '.' = false →
        get_extension_from_response hs default_ext = default_ext) ∧
      (occursIn "filename=".data (headerGet hs "Content-Disposition".data) = true →
        cdSearch (headerGet hs "Content-Disposition".data) = none →
        get_extension_from_response hs default_ext = default_ext) ∧
      (occursIn "filename=".data (headerGet hs "Content-Disposition".data) = false →
        get_extension_from_response hs default_ext = default_ext)) ∧
    get_extension_from_response [("Content-Type".data, "text/csv".data)] ".json".data =
      ".csv".data := by
  refine ⟨?_, ?_, ?_, ?_, ?_, ?_, by decide⟩
  · intro h
    simp [get_extension_from_response, h]
  · intro hc h
    have htc := occursIn_false_of "csv".data "text/csv".data (by decide) hc
    simp [get_extension_from_response, hc, htc, h]
  · intro hc hj h
    have htc := occursIn_false_of "csv".data "text/csv".data (by decide) hc
    simp [get_extension_from_response, hc, htc, hj, h]
  · intro hc hj hz h
    have htc := occursIn_false_of "csv".data "text/csv".data (by decide) hc
    have haz := occursIn_false_of "zip".data "application/zip".data (by decide) hz
    rcases h with h | h <;> simp [get_extension_from_response, hc, htc, hj, hz, haz, h]
  · intro hc hj hz he hsp h
    have htc := occursIn_false_of "csv".data "text/csv".data (by decide) hc
    have haz := occursIn_false_of "zip".data "application/zip".data (by decide) hz
    simp [get_extension_from_response, hc, htc, hj, hz, haz, he, hsp, h]
  · rintro ⟨hc, hj, hz, he, hsp, hx⟩
    have htc := occursIn_false_of "csv".data "text/csv".data (by decide) hc
    have haz := occursIn_false_of "zip".data "application/zip".data (by decide) hz
    refine ⟨?_, ?_, ?_, ?_⟩
    · intro f hfn hsrch hdot
      have hmem : '.' ∈ f := List.mem_of_elem_eq_true hdot
      simp [get_extension_from_response, hc, htc, hj, hz, haz, he, hsp, hx, hfn, hsrch, hmem]
    · intro f hfn hsrch hdot
      have hmem : '.' ∉ f := by
        intro hm
        have hcontra : List.contains f '.' = true := List.elem_eq_true_of_mem hm
        rw [hdot] at hcontra
        exact absurd hcontra (by simp)
      simp [get_extension_from_response, hc, htc, hj, hz, haz, he, hsp, hx, hfn, hsrch, hmem]
    · intro hfn hsrch
      simp [get_extension_from_response, hc, htc, hj, hz, haz, he, hsp, hx, hfn, hsrch]
    · intro hfn
      simp [get_extension_from_response, hc, htc, hj, hz, haz, he, hsp, hx, hfn]

/-- Witness for C6, discharging the content-type and content-disposition
hypotheses at concrete header lists. -/
theorem C6_post_response_extension_witness :
    get_extension_from_response [("Content-Type".data, "application/JSON".data)]
      ".csv".data = ".json".data ∧
    get_extension_from_response
      [("content-type".data, "application/octet-stream".data),
       ("Content-Disposition".data, "attachment; filename=report.XLSX".data)]
      ".json".data = ".xlsx".data := by
  constructor
  · exact (C6_post_response_extension
      [("Content-Type".data, "application/JSON".data)] ".csv".data).2.1
      (by decide) (by decide)
  · have h := ((C6_post_response_extension
      [("content-type".data, "application/octet-stream".data),
       ("Content-Disposition".data, "attachment; filename=report.XLSX".data)]
      ".json".data).2.2.2.2.2.1 (by decide)).1 "report.XLSX".data
      (by decide) (by decide) (by decide)
    rw [h]
    decide

/-! ## Claim C3: collision-free destination names -/

theorem candName_injective (base ext : Str) : Function.Injective (candName base ext) := by
  intro i j h
  match i, j with
  | 0, 0 => rfl
  | 0, j + 1 =>
    exfalso
    have hlen := congrArg List.length h
    simp only [candName, List.length_append, List.length_cons] at hlen
    have hr : 0 < (Nat.repr (j + 1)).data.length := by
      rw [repr_data]; exact decDigits_length_pos _
    omega
  | i + 1, 0 =>
    exfalso
    have hlen := congrArg List.length h
    simp only [candName, List.length_append, List.length_cons] at hlen
    have hr : 0 < (Nat.repr (i + 1)).data.length := by
      rw [repr_data]; exact decDigits_length_pos _
    omega
  | i + 1, j + 1 =>
    have h2 := List.append_cancel_left h
    injection h2 with _ h3
    exact repr_data_inj (List.append_cancel_right h3)

theorem findFresh_none_mem (dir : List Str) (base ext : Str) :
    ∀ (fuel k : Nat), findFresh dir base ext k fuel = none →
      ∀ j, j < fuel → candName base ext (k + j) ∈ dir := by
  intro fuel
  induction fuel with
  | zero => intro k _ j hj; omega
  | succ fuel ih =>
    intro k h j hj
    rw [findFresh] at h
    cases hc : dir.contains (candName base ext k) with
    | false => rw [hc] at h; simp at h
    | true =>
      rw [hc] at h
      simp only [if_true] at h
      cases j with
      | zero =>
        simpa using List.mem_of_elem_eq_true hc
      | succ j =>
        have h2 := ih (k + 1) h j (by omega)
        have he : k + 1 + j = k + (j + 1) := by omega
        rwa [he] at h2

theorem findFresh_some_spec (dir : List Str) (base ext : Str) :
    ∀ (fuel k : Nat) (f : Str), findFresh dir base ext k fuel = some f →
      f ∉ dir ∧ ∃ j, j < fuel ∧ f = candName base ext (k + j) ∧
        ∀ i, i < j → candName base ext (k + i) ∈ dir := by
  intro fuel
  induction fuel with
  | zero => intro k f h; simp [findFresh] at h
  | succ fuel ih =>
    intro k f h
    rw [findFresh] at h
    cases hc : dir.contains (candName base ext k) with
    | true =>
      rw [hc] at h
      simp only [if_true] at h
      rcases ih (k + 1) f h with ⟨hnot, j, hj, heq, hbelow⟩
      refine ⟨hnot, j + 1, by omega, ?_, ?_⟩
      · have he : k + 1 + j = k + (j + 1) := by omega
        rwa [he] at heq
      · intro i hi
        cases i with
        | zero => simpa using List.mem_of_elem_eq_true hc
        | succ i =>
          have h2 := hbelow i (by omega)
          have he : k + 1 + i = k + (i + 1) := by omega
          rwa [he] at h2
    | false =>
      rw [hc] at h
      simp only [Bool.false_eq_true, if_false, Option.some.injEq] at h
      subst h
      refine ⟨?_, 0, by omega, by simp, by omega⟩
      intro hm
      have hcontra : dir.contains (candName base ext k) = true :=
        List.elem_eq_true_of_mem hm
      rw [hc] at hcontra
      exact absurd hcontra (by simp)

theorem findFresh_total (dir : List Str) (base ext : Str) :
    ∃ f, findFresh dir base ext 0 (dir.length + 1) = some f := by
  cases hx : findFresh dir base ext 0 (dir.length + 1) with
  | some f => exact ⟨f, rfl⟩
  | none =>
    exfalso
    have hall := findFresh_none_mem dir base ext (dir.length + 1) 0 hx
    have hsub : ∀ x ∈ (List.range (dir.length + 1)).map (candName base ext), x ∈ dir := by
      intro x hx2
      rcases List.mem_map.mp hx2 with ⟨j, hj, rfl⟩
      simpa using hall j (List.mem_range.mp hj)
    have hnodup : ((List.range (dir.length + 1)).map (candName base ext)).Nodup :=
      (List.nodup_range _).map (candName_injective base ext)
    have hcard : ((List.range (dir.length + 1)).map (candName base ext)).toFinset.card =
        dir.length + 1 := by
      rw [List.toFinset_card_of_nodup hnodup]
      simp
    have hle : ((List.range (dir.length + 1)).map (candName base ext)).toFinset.card ≤
        dir.toFinset.card :=
      Finset.card_le_card (fun x hx2 =>
        List.mem_toFinset.mpr (hsub x (List.mem_toFinset.mp hx2)))
    have hfin := List.toFinset_card_le dir
    omega

theorem resolveName_spec (dir : List Str) (base ext : Str) :
    resolveName dir base ext ∉ dir ∧
    ∃ j, resolveName dir base ext = candName base ext j ∧
      (∀ i, i < j → candName base ext i ∈ dir) := by
  rcases findFresh_total dir base ext with ⟨f, hf⟩
  rcases findFresh_some_spec dir base ext _ 0 f hf with ⟨hnot, j, _, heq, hbelow⟩
  unfold resolveName
  rw [hf]
  simp only [Option.getD_some]
  refine ⟨hnot, j, by simpa using heq, ?_⟩
  intro i hi
  simpa using hbelow i hi

theorem dlLoop_dir_mono (env : Nat → Outcome) (base eext relPrefix : Str) :
    ∀ (rem attempt : Nat) (res : DLResult) (dir : List Str) (waits : List Nat),
      dir ⊆ (dlLoop env base eext relPrefix attempt rem res dir waits).dir := by
  intro rem
  induction rem with
  | zero => intro attempt res dir waits; exact List.Subset.refl dir
  | succ rem ih =>
    intro attempt res dir waits
    rw [dlLoop]
    cases env attempt with
    | timeout =>
      by_cases hr : rem = 0
      · simp only [hr, if_true]; exact List.Subset.refl dir
      · simp only [hr, if_false]; exact ih (attempt + 1) _ dir _
    | reqError msg =>
      by_cases hr : rem = 0
      · simp only [hr, if_true]; exact List.Subset.refl dir
      · simp only [hr, if_false]; exact ih (attempt + 1) _ dir _
    | resp r =>
      by_cases hs : 400 ≤ r.status ∧ r.status < 600
      · simp only [if_pos hs]; exact List.Subset.refl dir
      · simp only [if_neg hs]
        cases r.body with
        | ok chunks => exact List.subset_append_left dir _
        | failReq w msg =>
          by_cases hr : rem = 0
          · simp only [hr, if_true]; exact List.subset_append_left dir _
          · simp only [hr, if_false]
            exact List.Subset.trans (List.subset_append_left dir _) (ih (attempt + 1) _ _ _)
        | failOther w msg => exact List.subset_append_left dir _

/-- C3: the destination filename is resolved deterministically from the
directory contents at check time (`resolveName` is a function of them): the
resolved name never collides with an existing file, it is the first
candidate `base++ext`, `base_1++ext`, `base_2++ext`, ... not present, the
plain name is used when free, the fetch step never removes an existing file
from the region directory, and two rows that sanitize to the same name in
the same region yield `name.ext` and `name_1.ext`. -/
theorem C3_collision_free_names (dir : List Str) (base ext : Str) :
    resolveName dir base ext ∉ dir ∧
    (∃ j, resolveName dir base ext = candName base ext j ∧
      ∀ i, i < j → candName base ext i ∈ dir) ∧
    (base ++ ext ∉ dir → resolveName dir base ext = base ++ ext) ∧
    (∀ (hospital url ft region outName : Str) (env : Nat → Outcome),
      dir ⊆ (download_file hospital url ft region dir outName env).dir) ∧
    ((download_file "Hosp A".data "http://h/x".data "CSV".data "R".data []
        "public_prices".data (fun _ =>
          .resp ⟨200, "OK".data, [("Content-Type".data, "text/csv".data)], .ok [10]⟩)).dir =
      ["hosp_a.csv".data] ∧
     (download_file "HOSP  a".data "http://h/x".data "CSV".data "R".data ["hosp_a.csv".data]
        "public_prices".data (fun _ =>
          .resp ⟨200, "OK".data, [("Content-Type".data, "text/csv".data)], .ok [10]⟩)).result.filename =
      some "public_prices/r/hosp_a_1.csv".data) := by
  obtain ⟨hfresh, j, heq, hbelow⟩ := resolveName_spec dir base ext
  refine ⟨hfresh, ⟨j, heq, hbelow⟩, ?_, ?_, by decide, by decide⟩
  · intro h0
    cases hj : j with
    | zero => rw [hj] at heq; exact heq
    | succ j2 =>
      exfalso
      apply h0
      have := hbelow 0 (by omega)
      simpa [candName] using this
  · intro hospital url ft region outName env
    exact dlLoop_dir_mono env _ _ _ RETRY_ATTEMPTS 0 _ dir []

/-- Witness for C3, discharging the free-name hypothesis at a concrete
directory state. -/
theorem C3_collision_free_names_witness :
    resolveName ["b.csv".data] "a".data ".csv".data = "a".data ++ ".csv".data := by
  exact (C3_collision_free_names ["b.csv".data] "a".data ".csv".data).2.2.1 (by decide)

/-! ## Loop invariants of `download_file` (claims C1, C2, C10) -/

theorem dlLoop_error_persists (env : Nat → Outcome) (base eext relPrefix : Str) :
    ∀ (rem attempt : Nat) (res : DLResult) (dir : List Str) (waits : List Nat),
      res.error ≠ none →
      (dlLoop env base eext relPrefix attempt rem res dir waits).result.error ≠ none := by
  intro rem
  induction rem with
  | zero => intro attempt res dir waits h; exact h
  | succ rem ih =>
    intro attempt res dir waits h
    rw [dlLoop]
    cases env attempt with
    | timeout =>
      by_cases hr : rem = 0
      · simp [hr]
      · simp only [hr, if_false]
        exact ih (attempt + 1) _ _ _ (by simp)
    | reqError msg =>
      by_cases hr : rem = 0
      · simp [hr]
      · simp only [hr, if_false]
        exact ih (attempt + 1) _ _ _ (by simp)
    | resp r =>
      by_cases hs : 400 ≤ r.status ∧ r.status < 600
      · simp [if_pos hs]
      · simp only [if_neg hs]
        cases r.body with
        | ok chunks => simpa using h
        | failReq w msg =>
          by_cases hr : rem = 0
          · simp [hr]
          · simp only [hr, if_false]
            exact ih (attempt + 1) _ _ _ (by simp)
        | failOther w msg => simp

theorem dlLoop_filename_iff (env : Nat → Outcome) (base eext relPrefix : Str) :
    ∀ (rem attempt : Nat) (res : DLResult) (dir : List Str) (waits : List Nat),
      res.success = false → res.filename = none →
      ((dlLoop env base eext relPrefix attempt rem res dir waits).result.filename ≠ none ↔
        (dlLoop env base eext relPrefix attempt rem res dir waits).result.success = true) := by
  intro rem
  induction rem with
  | zero => intro attempt res dir waits hsu hfn; simp [dlLoop, hsu, hfn]
  | succ rem ih =>
    intro attempt res dir waits hsu hfn
    rw [dlLoop]
    cases env attempt with
    | timeout =>
      by_cases hr : rem = 0
      · simp [hr, hsu, hfn]
      · simp only [hr, if_false]
        exact ih (attempt + 1) _ _ _ (by simp [hsu]) (by simp [hfn])
    | reqError msg =>
      by_cases hr : rem = 0
      · simp [hr, hsu, hfn]
      · simp only [hr, if_false]
        exact ih (attempt + 1) _ _ _ (by simp [hsu]) (by simp [hfn])
    | resp r =>
      by_cases hs : 400 ≤ r.status ∧ r.status < 600
      · simp [if_pos hs, hsu, hfn]
      · simp only [if_neg hs]
        cases r.body with
        | ok chunks => simp
        | failReq w msg =>
          by_cases hr : rem = 0
          · simp [hr, hsu, hfn]
          · simp only [hr, if_false]
            exact ih (attempt + 1) _ _ _ (by simp [hsu]) (by simp [hfn])
        | failOther w msg => simp [hsu, hfn]

theorem dlLoop_attempts_ge (env : Nat → Outcome) (base eext relPrefix : Str) :
    ∀ (rem attempt : Nat) (res : DLResult) (dir : List Str) (waits : List Nat),
      0 < rem →
      attempt + 1 ≤ (dlLoop env base eext relPrefix attempt rem res dir waits).attempts := by
  intro rem
  induction rem with
  | zero => intro attempt res dir waits h; omega
  | succ rem ih =>
    intro attempt res dir waits _
    rw [dlLoop]
    cases env attempt with
    | timeout =>
      by_cases hr : rem = 0
      · simp [hr]
      · simp only [hr, if_false]
        have := ih (attempt + 1) ({ res with error := some (timeoutMsg attempt) }) dir
          (waits ++ [2 ^ attempt]) (by omega)
        omega
    | reqError msg =>
      by_cases hr : rem = 0
      · simp [hr]
      · simp only [hr, if_false]
        have := ih (attempt + 1) ({ res with error := some msg }) dir
          (waits ++ [2 ^ attempt]) (by omega)
        omega
    | resp r =>
      by_cases hs : 400 ≤ r.status ∧ r.status < 600
      · simp [if_pos hs]
      · simp only [if_neg hs]
        cases r.body with
        | ok chunks => simp
        | failReq w msg =>
          by_cases hr : rem = 0
          · simp [hr]
          · simp only [hr, if_false]
            have := ih (attempt + 1) ({ res with error := some msg })
              (dir ++ [resolveName dir base (get_extension_from_response r.headers eext)])
              (waits ++ [2 ^ attempt]) (by omega)
            omega
        | failOther w msg => simp

theorem dlLoop_error_none_iff (env : Nat → Outcome) (base eext relPrefix : Str) :
    ∀ (rem attempt : Nat) (res : DLResult) (dir : List Str) (waits : List Nat),
      0 < rem → res.error = none → res.success = false →
      ((dlLoop env base eext relPrefix attempt rem res dir waits).result.error = none ↔
        ((dlLoop env base eext relPrefix attempt rem res dir waits).result.success = true ∧
         (dlLoop env base eext relPrefix attempt rem res dir waits).attempts = attempt + 1)) := by
  intro rem
  induction rem with
  | zero => intro attempt res dir waits h; omega
  | succ rem ih =>
    intro attempt res dir waits _ herr hsu
    rw [dlLoop]
    cases env attempt with
    | timeout =>
      by_cases hr : rem = 0
      · simp [hr, hsu]
      · simp only [hr, if_false]
        constructor
        · intro hcontra
          exact absurd hcontra (dlLoop_error_persists env base eext relPrefix rem
            (attempt + 1) _ _ _ (by simp))
        · rintro ⟨_, hat⟩
          have := dlLoop_attempts_ge env base eext relPrefix rem (attempt + 1)
            ({ res with error := some (timeoutMsg attempt) }) dir (waits ++ [2 ^ attempt])
            (by omega)
          omega
    | reqError msg =>
      by_cases hr : rem = 0
      · simp [hr, hsu]
      · simp only [hr, if_false]
        constructor
        · intro hcontra
          exact absurd hcontra (dlLoop_error_persists env base eext relPrefix rem
            (attempt + 1) _ _ _ (by simp))
        · rintro ⟨_, hat⟩
          have := dlLoop_attempts_ge env base eext relPrefix rem (attempt + 1)
            ({ res with error := some msg }) dir (waits ++ [2 ^ attempt]) (by omega)
          omega
    | resp r =>
      by_cases hs : 400 ≤ r.status ∧ r.status < 600
      · simp [if_pos hs, hsu]
      · simp only [if_neg hs]
        cases r.body with
        | ok chunks => simp [herr]
        | failReq w msg =>
          by_cases hr : rem = 0
          · simp [hr, hsu]
          · simp only [hr, if_false]
            constructor
            · intro hcontra
              exact absurd hcontra (dlLoop_error_persists env base eext relPrefix rem
                (attempt + 1) _ _ _ (by simp))
            · rintro ⟨_, hat⟩
              have := dlLoop_attempts_ge env base eext relPrefix rem (attempt + 1)
                ({ res with error := some msg })
                (dir ++ [resolveName dir base (get_extension_from_response r.headers eext)])
                (waits ++ [2 ^ attempt]) (by omega)
              omega
        | failOther w msg => simp [hsu]

theorem dlLoop_size_zero (env : Nat → Outcome) (base eext relPrefix : Str) :
    ∀ (rem attempt : Nat) (res : DLResult) (dir : List Str) (waits : List Nat),
      res.size = 0 →
      (dlLoop env base eext relPrefix attempt rem res dir waits).result.success = false →
      (dlLoop env base eext relPrefix attempt rem res dir waits).result.size = 0 := by
  intro rem
  induction rem with
  | zero => intro attempt res dir waits h _; exact h
  | succ rem ih =>
    intro attempt res dir waits h
    rw [dlLoop]
    cases env attempt with
    | timeout =>
      by_cases hr : rem = 0
      · intro _; simp only [hr, if_true]; simpa using h
      · simp only [hr, if_false]
        exact ih (attempt + 1) _ _ _ (by simpa using h)
    | reqError msg =>
      by_cases hr : rem = 0
      · intro _; simp only [hr, if_true]; simpa using h
      · simp only [hr, if_false]
        exact ih (attempt + 1) _ _ _ (by simpa using h)
    | resp r =>
      by_cases hs : 400 ≤ r.status ∧ r.status < 600
      · simp only [if_pos hs]; intro _; simpa using h
      · simp only [if_neg hs]
        cases r.body with
        | ok chunks => intro hsu; simp at hsu
        | failReq w msg =>
          by_cases hr : rem = 0
          · intro _; simp only [hr, if_true]; simpa using h
          · simp only [hr, if_false]
            exact ih (attempt + 1) _ _ _ (by simpa using h)
        | failOther w msg => intro _; simpa using h

/-- C1: the retry state machine of `download_file`: a row whose three
attempts all fail at the transport level (timeout or request exception) is
attempted exactly 3 times with backoff waits of `2^0` and `2^1` seconds
between consecutive attempts and yields a failed result; a row whose first
attempt returns an HTTP error status (400-599) is attempted exactly once,
with no backoff wait, and yields a failed result recording the status code
and reason. -/
theorem C1_retry_state_machine (hospital url ft region : Str) (dir : List Str)
    (outName : Str) (env : Nat → Outcome) :
    ((∀ i, i < RETRY_ATTEMPTS → (env i = .timeout ∨ ∃ m, env i = .reqError m)) →
      (download_file hospital url ft region dir outName env).attempts = 3 ∧
      (download_file hospital url ft region dir outName env).waits = [1, 2] ∧
      (download_file hospital url ft region dir outName env).result.success = false ∧
      (download_file hospital url ft region dir outName env).result.error ≠ none) ∧
    (∀ status reason hs body, env 0 = .resp ⟨status, reason, hs, body⟩ →
      400 ≤ status → status < 600 →
      (download_file hospital url ft region dir outName env).attempts = 1 ∧
      (download_file hospital url ft region dir outName env).waits = [] ∧
      (download_file hospital url ft region dir outName env).result.success = false ∧
      (download_file hospital url ft region dir outName env).result.error =
        some (httpErrMsg status reason)) := by
  constructor
  · intro h
    rcases h 0 (by decide) with h0 | ⟨m0, h0⟩ <;>
      rcases h 1 (by decide) with h1 | ⟨m1, h1⟩ <;>
        rcases h 2 (by decide) with h2 | ⟨m2, h2⟩ <;>
          simp [download_file, RETRY_ATTEMPTS, dlLoop, h0, h1, h2]
  · intro status reason hs body h hle hlt
    simp [download_file, RETRY_ATTEMPTS, dlLoop, h, hle, hlt]

/-- Witness for C1: three timeouts give 3 attempts and waits `[1, 2]`; a
single HTTP 404 gives 1 attempt and no wait. -/
theorem C1_retry_state_machine_witness :
    ((download_file "A".data "u".data "CSV".data "R".data [] "out".data
        (fun _ => .timeout)).attempts = 3 ∧
     (download_file "A".data "u".data "CSV".data "R".data [] "out".data
        (fun _ => .timeout)).waits = [1, 2]) ∧
    ((download_file "A".data "u".data "CSV".data "R".data [] "out".data
        (fun _ => .resp ⟨404, "Not Found".data, [], .ok []⟩)).attempts = 1 ∧
     (download_file "A".data "u".data "CSV".data "R".data [] "out".data
        (fun _ => .resp ⟨404, "Not Found".data, [], .ok []⟩)).result.error =
       some (httpErrMsg 404 "Not Found".data)) := by
  constructor
  · have h := (C1_retry_state_machine "A".data "u".data "CSV".data "R".data []
      "out".data (fun _ => .timeout)).1 (fun i _ => Or.inl rfl)
    exact ⟨h.1, h.2.1⟩
  · have h := (C1_retry_state_machine "A".data "u".data "CSV".data "R".data []
      "out".data (fun _ => .resp ⟨404, "Not Found".data, [], .ok []⟩)).2
      404 "Not Found".data [] (.ok []) rfl (by decide) (by decide)
    exact ⟨h.1, h.2.2.2⟩

/-- C2 as amended: the filename field is set if and only if the row
succeeded, a failed row always records an error, and the error field is
absent exactly when the row succeeded on its very first attempt — a row
that succeeds on a retry keeps the previous attempt failure message in its
error field (the result dictionary is created once and the success path
never clears `error`). -/
theorem C2_result_field_invariants (hospital url ft region : Str) (dir : List Str)
    (outName : Str) (env : Nat → Outcome) :
    ((download_file hospital url ft region dir outName env).result.filename ≠ none ↔
      (download_file hospital url ft region dir outName env).result.success = true) ∧
    ((download_file hospital url ft region dir outName env).result.success = false →
      (download_file hospital url ft region dir outName env).result.error ≠ none) ∧
    ((download_file hospital url ft region dir outName env).result.error = none ↔
      ((download_file hospital url ft region dir outName env).result.success = true ∧
       (download_file hospital url ft region dir outName env).attempts = 1)) := by
  have h1 := dlLoop_filename_iff env (sanitize_filename hospital)
    (get_extension_from_url url ft)
    (outName ++ '/' :: (sanitize_filename region ++ ['/'])) RETRY_ATTEMPTS 0
    ⟨hospital, url, false, none, none, 0⟩ dir [] rfl rfl
  have h2 := dlLoop_error_none_iff env (sanitize_filename hospital)
    (get_extension_from_url url ft)
    (outName ++ '/' :: (sanitize_filename region ++ ['/'])) RETRY_ATTEMPTS 0
    ⟨hospital, url, false, none, none, 0⟩ dir [] (by decide) rfl rfl
  have e : dlLoop env (sanitize_filename hospital) (get_extension_from_url url ft)
      (outName ++ '/' :: (sanitize_filename region ++ ['/'])) 0 RETRY_ATTEMPTS
      ⟨hospital, url, false, none, none, 0⟩ dir [] =
      download_file hospital url ft region dir outName env := rfl
  rw [e] at h1 h2
  simp only [Nat.zero_add] at h2
  refine ⟨h1, ?_, h2⟩
  intro hf hcontra
  have hs := (h2.mp hcontra).1
  rw [hf] at hs
  exact absurd hs (by simp)

/-- Counterexample to C2 as stated: a row that times out once and then
succeeds has `success = True` but keeps the first attempt timeout message
in its error field, so the error field is not `None` on this success. -/
theorem C2_claim_counterexample :
    (download_file "A".data "u".data "CSV".data "R".data [] "out".data
      (fun i => if i = 0 then .timeout
        else .resp ⟨200, "OK".data, [("Content-Type".data, "text/csv".data)],
          .ok [7]⟩)).result.success = true ∧
    (download_file "A".data "u".data "CSV".data "R".data [] "out".data
      (fun i => if i = 0 then .timeout
        else .resp ⟨200, "OK".data, [("Content-Type".data, "text/csv".data)],
          .ok [7]⟩)).result.error = some (timeoutMsg 0) := by
  decide

/-- Witness for the amended C2 at a concrete failing row (HTTP 500 on the
first attempt). -/
theorem C2_result_field_invariants_witness :
    (download_file "A".data "u".data "CSV".data "R".data [] "out".data
      (fun _ => .resp ⟨500, "Server Error".data, [], .ok []⟩)).result.error ≠ none := by
  exact (C2_result_field_invariants "A".data "u".data "CSV".data "R".data []
    "out".data (fun _ => .resp ⟨500, "Server Error".data, [], .ok []⟩)).2.1 (by decide)

/-- C10: a failed fetch always reports `size = 0`, even when the failure
happened during body streaming after bytes were written to the destination
file: the byte counter is stored into the result only on the success path.
The closed conjuncts exhibit such a mid-stream failure with 4096 bytes
already written. -/
theorem C10_failed_row_size_zero (hospital url ft region : Str) (dir : List Str)
    (outName : Str) (env : Nat → Outcome) :
    ((download_file hospital url ft region dir outName env).result.success = false →
      (download_file hospital url ft region dir outName env).result.size = 0) ∧
    (download_file "A".data "u".data "CSV".data "R".data [] "out".data
      (fun _ => .resp ⟨200, "OK".data, [],
        .failOther [4096] "boom".data⟩)).result.success = false ∧
    (download_file "A".data "u".data "CSV".data "R".data [] "out".data
      (fun _ => .resp ⟨200, "OK".data, [],
        .failOther [4096] "boom".data⟩)).result.size = 0 := by
  refine ⟨?_, by decide, by decide⟩
  exact dlLoop_size_zero env (sanitize_filename hospital)
    (get_extension_from_url url ft)
    (outName ++ '/' :: (sanitize_filename region ++ ['/'])) RETRY_ATTEMPTS 0
    ⟨hospital, url, false, none, none, 0⟩ dir [] rfl

/-- Witness for C10 at a concrete mid-stream request-exception failure that
is retried and fails all attempts. -/
theorem C10_failed_row_size_zero_witness :
    (download_file "A".data "u".data "CSV".data "R".data [] "out".data
      (fun _ => .resp ⟨200, "OK".data, [],
        .failReq [8192] "connection reset".data⟩)).result.size = 0 := by
  exact (C10_failed_row_size_zero "A".data "u".data "CSV".data "R".data []
    "out".data (fun _ => .resp ⟨200, "OK".data, [],
      .failReq [8192] "connection reset".data⟩)).1 (by decide)

/-! ## Orchestrator lemmas (claims C7, C8, C9) -/

theorem dlLoop_const_fields (env : Nat → Outcome) (base eext relPrefix : Str) :
    ∀ (rem attempt : Nat) (res : DLResult) (dir : List Str) (waits : List Nat),
      (dlLoop env base eext relPrefix attempt rem res dir waits).result.hospital =
        res.hospital ∧
      (dlLoop env base eext relPrefix attempt rem res dir waits).result.url = res.url := by
  intro rem
  induction rem with
  | zero => intro attempt res dir waits; exact ⟨rfl, rfl⟩
  | succ rem ih =>
    intro attempt res dir waits
    rw [dlLoop]
    cases env attempt with
    | timeout =>
      by_cases hr : rem = 0
      · simp [hr]
      · simp only [hr, if_false]
        simpa using ih (attempt + 1) _ _ _
    | reqError msg =>
      by_cases hr : rem = 0
      · simp [hr]
      · simp only [hr, if_false]
        simpa using ih (attempt + 1) _ _ _
    | resp r =>
      by_cases hs : 400 ≤ r.status ∧ r.status < 600
      · simp [if_pos hs]
      · simp only [if_neg hs]
        cases r.body with
        | ok chunks => simp
        | failReq w msg =>
          by_cases hr : rem = 0
          · simp [hr]
          · simp only [hr, if_false]
            simpa using ih (attempt + 1) _ _ _
        | failOther w msg => simp

theorem download_file_fields (hospital url ft region : Str) (dir : List Str)
    (outName : Str) (env : Nat → Outcome) :
    (download_file hospital url ft region dir outName env).result.hospital = hospital ∧
    (download_file hospital url ft region dir outName env).result.url = url := by
  have hcf := dlLoop_const_fields env (sanitize_filename hospital)
    (get_extension_from_url url ft)
    (outName ++ '/' :: (sanitize_filename region ++ ['/'])) RETRY_ATTEMPTS 0
    ⟨hospital, url, false, none, none, 0⟩ dir []
  exact ⟨hcf.1, hcf.2⟩

theorem wf_row_fields {r : RawRow} (h : firstMissing r = none) :
    ∃ name url ft region, rowGet r "hospital_name".data = some name ∧
      rowGet r "mrf_download_url".data = some url ∧
      rowGet r "file_type".data = some ft ∧ rowGet r "region".data = some region := by
  unfold firstMissing at h
  cases hn1 : rowGet r "hospital_name".data with
  | none => rw [hn1] at h; simp at h
  | some name =>
    rw [hn1] at h
    cases hn2 : rowGet r "mrf_download_url".data with
    | none => rw [hn2] at h; simp at h
    | some url =>
      rw [hn2] at h
      cases hn3 : rowGet r "file_type".data with
      | none => rw [hn3] at h; simp at h
      | some ft =>
        rw [hn3] at h
        cases hn4 : rowGet r "region".data with
        | none => rw [hn4] at h; simp at h
        | some region => exact ⟨name, url, ft, region, rfl, rfl, rfl, rfl⟩

theorem processRows_wf (outName : Str) (envs : Nat → Nat → Outcome) :
    ∀ (rows : List RawRow) (i : Nat) (fs : FS),
      (∀ r ∈ rows, firstMissing r = none) →
      ∃ results fs2, processRows outName envs rows i fs = .ok (results, fs2) ∧
        results.length = rows.length ∧
        ∀ (j : Nat) (hj : j < rows.length) (hr : j < results.length),
          (results.get ⟨j, hr⟩).hospital =
            (rowGet (rows.get ⟨j, hj⟩) "hospital_name".data).getD [] ∧
          (results.get ⟨j, hr⟩).url =
            (rowGet (rows.get ⟨j, hj⟩) "mrf_download_url".data).getD [] := by
  intro rows
  induction rows with
  | nil =>
    intro i fs _
    exact ⟨[], fs, rfl, rfl, fun j hj => absurd hj (by simp)⟩
  | cons r rest ih =>
    intro i fs h
    rcases wf_row_fields (h r (List.mem_cons_self r rest)) with
      ⟨name, url, ft, region, hn1, hn2, hn3, hn4⟩
    rcases ih (i + 1) (fsSet fs (sanitize_filename region)
        (download_file name url ft region (fsGet fs (sanitize_filename region))
          outName (envs i)).dir)
        (fun x hx => h x (List.mem_cons_of_mem r hx)) with
      ⟨results, fs2, hok, hlen, hcorr⟩
    refine ⟨(download_file name url ft region (fsGet fs (sanitize_filename region))
        outName (envs i)).result :: results, fs2, ?_, by simpa using hlen, ?_⟩
    · rw [processRows, hn1, hn2, hn3, hn4]
      simp only [hok]
    · intro j hj hr
      cases j with
      | zero =>
        have hcf := download_file_fields name url ft region
          (fsGet fs (sanitize_filename region)) outName (envs i)
        simp only [List.get]
        constructor
        · rw [hcf.1]
          simp [hn1]
        · rw [hcf.2]
          simp [hn2]
      | succ j =>
        simpa using hcorr j (by simpa using hj) (by simpa using hr)

theorem processRows_error (outName : Str) (envs : Nat → Nat → Outcome) (bad : RawRow)
    (f : Str) (hbad : firstMissing bad = some f) :
    ∀ (pre : List RawRow) (rest : List RawRow) (i : Nat) (fs : FS),
      (∀ r ∈ pre, firstMissing r = none) →
      processRows outName envs (pre ++ bad :: rest) i fs = .error (keyErrorMsg f) := by
  intro pre
  induction pre with
  | nil =>
    intro rest i fs _
    simp only [List.nil_append]
    rw [processRows]
    cases hn1 : rowGet bad "hospital_name".data with
    | none => simp [hn1, hbad]
    | some name =>
      cases hn2 : rowGet bad "mrf_download_url".data with
      | none => simp [hn1, hn2, hbad]
      | some url =>
        cases hn3 : rowGet bad "file_type".data with
        | none => simp [hn1, hn2, hn3, hbad]
        | some ft =>
          cases hn4 : rowGet bad "region".data with
          | none => simp [hn1, hn2, hn3, hn4, hbad]
          | some region =>
            exfalso
            have hnone : firstMissing bad = none := by
              unfold firstMissing
              simp [hn1, hn2, hn3, hn4]
            rw [hnone] at hbad
            exact absurd hbad (by simp)
  | cons r pre2 ih =>
    intro rest i fs h
    rcases wf_row_fields (h r (List.mem_cons_self r pre2)) with
      ⟨name, url, ft, region, hn1, hn2, hn3, hn4⟩
    simp only [List.cons_append]
    rw [processRows]
    simp only [hn1, hn2, hn3, hn4]
    rw [ih rest (i + 1) _ (fun x hx => h x (List.mem_cons_of_mem r hx))]

/-- C7: the orchestrator returns exit status 0 iff every row succeeded; it
returns 1 when the manifest file is missing, and when some row failed it
still returns 1 with the log artifact for the whole ordered result
sequence and the summary counters completed. -/
theorem C7_exit_status (rows : List RawRow) (outName : Str)
    (envs : Nat → Nat → Outcome) :
    mainRun false rows outName envs = .ok ⟨1, none, [], 0, 0, 0⟩ ∧
    (∀ out, mainRun true rows outName envs = .ok out →
      (out.exitCode = 0 ↔ ∀ r ∈ out.results, r.success = true) ∧
      (out.exitCode = 0 ∨ out.exitCode = 1) ∧
      out.log = some (logHeader :: out.results.map logRow) ∧
      out.failCount = (out.results.filter (fun r => !r.success)).length ∧
      out.okCount = (out.results.filter (fun r => r.success)).length) := by
  constructor
  · rfl
  · intro out hout
    simp only [mainRun, if_true] at hout
    cases hp : processRows outName envs rows 0 [] with
    | error e => rw [hp] at hout; exact absurd hout (by simp)
    | ok p =>
      obtain ⟨results, fs2⟩ := p
      rw [hp] at hout
      simp only [Except.ok.injEq] at hout
      subst hout
      refine ⟨?_, ?_, rfl, rfl, rfl⟩
      · by_cases hzero : (results.filter (fun r => !r.success)).length = 0
        · rw [if_pos hzero]
          have hnil := List.length_eq_zero.mp hzero
          rw [List.filter_eq_nil_iff] at hnil
          refine iff_of_true rfl ?_
          intro r hr
          have := hnil r hr
          simpa using this
        · rw [if_neg hzero]
          apply iff_of_false (by simp)
          intro hall
          apply hzero
          have hfn : results.filter (fun r => !r.success) = [] := by
            rw [List.filter_eq_nil_iff]
            intro r hr
            simp [hall r hr]
          rw [hfn]
          rfl
      · by_cases hzero : (results.filter (fun r => !r.success)).length = 0
        · simp [hzero]
        · simp [hzero]

/-- Witness for C7 at a one-row manifest whose single row fails with
HTTP 404: the run returns exit status 1 with a completed log. -/
theorem C7_exit_status_witness :
    ((⟨1, some [logHeader,
        ["A".data, "u".data, "False".data, [], "0".data, "HTTP 404: NF".data]],
      [⟨"A".data, "u".data, false, none, some "HTTP 404: NF".data, 0⟩],
      0, 1, 0⟩ : RunOut).exitCode = 0 ↔
      ∀ r ∈ (⟨1, some [logHeader,
        ["A".data, "u".data, "False".data, [], "0".data, "HTTP 404: NF".data]],
      [⟨"A".data, "u".data, false, none, some "HTTP 404: NF".data, 0⟩],
      0, 1, 0⟩ : RunOut).results, r.success = true) ∧
    (⟨1, some [logHeader,
        ["A".data, "u".data, "False".data, [], "0".data, "HTTP 404: NF".data]],
      [⟨"A".data, "u".data, false, none, some "HTTP 404: NF".data, 0⟩],
      0, 1, 0⟩ : RunOut).log ≠ none := by
  have h := (C7_exit_status
    [⟨[("hospital_name".data, "A".data), ("mrf_download_url".data, "u".data),
       ("file_type".data, "CSV".data), ("region".data, "R".data)]⟩]
    "out".data (fun _ _ => .resp ⟨404, "NF".data, [], .ok []⟩)).2
    ⟨1, some [logHeader,
        ["A".data, "u".data, "False".data, [], "0".data, "HTTP 404: NF".data]],
      [⟨"A".data, "u".data, false, none, some "HTTP 404: NF".data, 0⟩],
      0, 1, 0⟩ (by rfl)
  exact ⟨h.1, by rw [h.2.2.1]; simp⟩

/-- C8: over a well-formed manifest the run always completes (per-row
failures never abort it: the environment of outcomes is universally
quantified), producing exactly one result per manifest row; the log
artifact is a header of the columns hospital, url, success, filename,
size, error followed by exactly one data row per manifest row, in manifest
order, and each result carries the name and url of its manifest row. -/
theorem C8_one_result_per_row (rows : List RawRow) (outName : Str)
    (envs : Nat → Nat → Outcome)
    (h : ∀ r ∈ rows, firstMissing r = none) :
    ∃ out, mainRun true rows outName envs = .ok out ∧
      out.results.length = rows.length ∧
      out.log = some (logHeader :: out.results.map logRow) ∧
      logHeader = ["hospital".data, "url".data, "success".data,
        "filename".data, "size".data, "error".data] ∧
      (out.log.getD []).length = rows.length + 1 ∧
      ∀ (j : Nat) (hj : j < rows.length) (hr : j < out.results.length),
        (out.results.get ⟨j, hr⟩).hospital =
          (rowGet (rows.get ⟨j, hj⟩) "hospital_name".data).getD [] ∧
        (out.results.get ⟨j, hr⟩).url =
          (rowGet (rows.get ⟨j, hj⟩) "mrf_download_url".data).getD [] := by
  rcases processRows_wf outName envs rows 0 [] h with ⟨results, fs2, hok, hlen, hcorr⟩
  refine ⟨⟨if (results.filter (fun r => !r.success)).length = 0 then 0 else 1,
    some (logHeader :: results.map logRow), results,
    (results.filter (fun r => r.success)).length,
    (results.filter (fun r => !r.success)).length,
    (results.filter (fun r => r.success)).foldl (fun a r => a + r.size) 0⟩,
    ?_, hlen, rfl, rfl, ?_, hcorr⟩
  · simp [mainRun, hok]
  · simp [hlen]

/-- Witness for C8 at a concrete two-row manifest (one success, one HTTP
failure). -/
theorem C8_one_result_per_row_witness :
    ∃ out, mainRun true
      [⟨[("hospital_name".data, "A".data), ("mrf_download_url".data, "u".data),
         ("file_type".data, "CSV".data), ("region".data, "R".data)]⟩,
       ⟨[("hospital_name".data, "B".data), ("mrf_download_url".data, "v".data),
         ("file_type".data, "CSV".data), ("region".data, "R".data)]⟩]
      "out".data (fun i _ => if i = 0 then
        .resp ⟨200, "OK".data, [("Content-Type".data, "text/csv".data)], .ok [5]⟩
        else .resp ⟨500, "SE".data, [], .ok []⟩) = .ok out ∧
      out.results.length = 2 := by
  rcases C8_one_result_per_row
    [⟨[("hospital_name".data, "A".data), ("mrf_download_url".data, "u".data),
       ("file_type".data, "CSV".data), ("region".data, "R".data)]⟩,
     ⟨[("hospital_name".data, "B".data), ("mrf_download_url".data, "v".data),
       ("file_type".data, "CSV".data), ("region".data, "R".data)]⟩]
    "out".data (fun i _ => if i = 0 then
      .resp ⟨200, "OK".data, [("Content-Type".data, "text/csv".data)], .ok [5]⟩
      else .resp ⟨500, "SE".data, [], .ok []⟩) (by decide) with
    ⟨out, hok, hlen, _⟩
  exact ⟨out, hok, by simpa using hlen⟩

/-- C9: a manifest row missing a required field stops the run with a fatal
error (an uncaught KeyError in the source, the `.error` case here) exactly
when that row is reached: the rows after it are universally quantified and
absent from the conclusion, so they are never processed and no per-row
skip happens. -/
theorem C9_missing_field_aborts (pre : List RawRow) (bad : RawRow)
    (rest : List RawRow) (outName : Str) (envs : Nat → Nat → Outcome) (f : Str)
    (hpre : ∀ r ∈ pre, firstMissing r = none) (hbad : firstMissing bad = some f) :
    mainRun true (pre ++ bad :: rest) outName envs = .error (keyErrorMsg f) := by
  have hp := processRows_error outName envs bad f hbad pre rest 0 [] hpre
  simp [mainRun, hp]

/-- Witness for C9: a good first row, then a row missing the URL field; the
run aborts with the KeyError for `mrf_download_url` no matter what follows. -/
theorem C9_missing_field_aborts_witness :
    mainRun true
      [⟨[("hospital_name".data, "A".data), ("mrf_download_url".data, "u".data),
         ("file_type".data, "CSV".data), ("region".data, "R".data)]⟩,
       ⟨[("hospital_name".data, "B".data), ("file_type".data, "CSV".data),
         ("region".data, "R".data)]⟩]
      "out".data (fun _ _ => .timeout) =
      .error (keyErrorMsg "mrf_download_url".data) := by
  exact C9_missing_field_aborts
    [⟨[("hospital_name".data, "A".data), ("mrf_download_url".data, "u".data),
       ("file_type".data, "CSV".data), ("region".data, "R".data)]⟩]
    ⟨[("hospital_name".data, "B".data), ("file_type".data, "CSV".data),
      ("region".data, "R".data)]⟩
    [] "out".data (fun _ _ => .timeout) "mrf_download_url".data
    (by decide) (by decide)

end DP
